import Mathlib

/-
Shallow embedding of the two command-line scripts of the github_bot
repository: src/GithubManagement.ts (the manifest flow) and the interactive
script src/unnamed/part_000 (the interactive flow).  Host calls made through
the wrapped Octokit client are recorded as explicit events; each wrapper
method of the GitHubManager class is modelled by how its try/catch block
transforms the raw outcome of the underlying API call.
-/

/-- Error value observed by the catch blocks of both scripts; the code
inspects only the numeric status field of the thrown error
(GithubManagement.ts line 55). -/
structure JsError where
  status : Nat
deriving DecidableEq

/-- One invocation of a method of the wrapped repository-host client,
recorded with its arguments, in program order. -/
inductive HostCall where
  | getAuthenticated : HostCall
  | repositoryExists (owner repo : String) : HostCall
  | createRepository (repo : String) (isPrivate : Bool) : HostCall
  | deleteRepository (owner repo : String) : HostCall
  | addCollaborator (owner repo user : String) : HostCall
  | removeCollaborator (owner repo user : String) : HostCall
  | listCollaborators (owner repo : String) : HostCall
deriving DecidableEq

/-- Model of the JS toLowerCase normalization both scripts apply to
usernames: lowercase every character (basic-latin case folding, the range
relevant to host usernames). -/
def lowerStr (s : String) : String := String.mk (s.data.map Char.toLower)

namespace GitHubManager

/-- Model of GitHubManager.getAuthenticatedUsername: the catch block logs
and rethrows, so the raw outcome of the underlying call propagates
unchanged (GithubManagement.ts lines 30-38). -/
def getAuthenticatedUsername (raw : Except JsError String) : Except JsError String :=
  match raw with
  | .ok resp => .ok resp
  | .error e => .error e

/-- Model of GitHubManager.repositoryExists: a successful lookup yields
true, a thrown error whose status field is 404 yields false, and any other
thrown error is rethrown (GithubManagement.ts lines 47-62). -/
def repositoryExists (raw : Except JsError Unit) : Except JsError Bool :=
  match raw with
  | .ok _ => .ok true
  | .error e => if e.status = 404 then .ok false else .error e

/-- Model of GitHubManager.createRepository: the catch block logs and does
not rethrow, so the call never propagates an error
(GithubManagement.ts lines 71-81). -/
def createRepository (raw : Except JsError Unit) : Except JsError Unit :=
  match raw with
  | .ok _ => .ok ()
  | .error _ => .ok ()

/-- Model of GitHubManager.addUserToRepository: the catch block logs and
does not rethrow (GithubManagement.ts lines 91-103). -/
def addUserToRepository (raw : Except JsError Unit) : Except JsError Unit :=
  match raw with
  | .ok _ => .ok ()
  | .error _ => .ok ()

/-- Model of GitHubManager.removeUserFromRepository: the catch block logs
and does not rethrow (GithubManagement.ts lines 113-124). -/
def removeUserFromRepository (raw : Except JsError Unit) : Except JsError Unit :=
  match raw with
  | .ok _ => .ok ()
  | .error _ => .ok ()

/-- Model of the deleteRepository method of the interactive script: the
catch block logs and does not rethrow (src/unnamed/part_000 lines 55-65). -/
def deleteRepository (raw : Except JsError Unit) : Except JsError Unit :=
  match raw with
  | .ok _ => .ok ()
  | .error _ => .ok ()

/-- Model of GitHubManager.listCollaborators: the catch block logs and then
rethrows, so the raw outcome propagates unchanged
(GithubManagement.ts lines 133-144). -/
def listCollaborators (raw : Except JsError (List String)) : Except JsError (List String) :=
  match raw with
  | .ok resp => .ok resp
  | .error e => .error e

end GitHubManager

/-- The toAdd computation of the manifest flow update branch: both lists
are lowercased and the desired list is filtered to the entries absent from
the current list (GithubManagement.ts lines 203-211). -/
def collaboratorsToAdd (collaborators currentCollaborators : List String) : List String :=
  (collaborators.map lowerStr).filter
    (fun collab => !((currentCollaborators.map lowerStr).contains collab))

/-- The toRemove computation of the manifest flow update branch: the
lowercased current list is filtered to the entries absent from the
lowercased desired list and different from the lowercased owner username
(GithubManagement.ts lines 212-214). -/
def collaboratorsToRemove (collaborators currentCollaborators : List String)
    (username : String) : List String :=
  (currentCollaborators.map lowerStr).filter
    (fun collab =>
      !((collaborators.map lowerStr).contains collab) && collab != lowerStr username)

/-- Parsed manifest object of the manifest flow: teamName is none when the
field is missing, collaborators is none when the field is missing or not an
array (GithubManagement.ts line 185). -/
structure TeamData where
  teamName : Option String
  collaborators : Option (List String)

/-- The shape check of the manifest flow, mirroring the test
on line 187 of GithubManagement.ts: teamName present and non-empty (the JS
truthiness test on a string field) and collaborators an array. -/
def TeamData.valid (td : TeamData) : Bool :=
  (match td.teamName with
   | some s => s != ""
   | none => false) && td.collaborators.isSome

/-- Raw outcomes of the underlying API for one run of the manifest flow:
what each possible call of the wrapped client would return. -/
structure ManifestEnv where
  authResult : Except JsError String
  repoGetResult : Except JsError Unit
  listResult : Except JsError (List String)
  createResult : Except JsError Unit
  addResult : String → Except JsError Unit
  removeResult : String → Except JsError Unit

/-- One for-of loop over usernames in the manifest flow: each iteration
performs one awaited wrapper call, recorded through mk; an error thrown by
the wrapper would abort the loop and the run, as a rejected awaited promise
aborts the enclosing async function. The Bool records whether the loop ran
to completion. -/
def runCalls (wrapper : Except JsError Unit → Except JsError Unit)
    (raw : String → Except JsError Unit) (mk : String → HostCall) :
    List String → List HostCall × Bool
  | [] => ([], true)
  | c :: rest =>
    match wrapper (raw c) with
    | .ok _ =>
      let r := runCalls wrapper raw mk rest
      (mk c :: r.1, r.2)
    | .error _ => ([mk c], false)

/-- The update branch of the manifest flow (repository exists,
GithubManagement.ts lines 197-226): list current collaborators, compute the
two difference lists, then add then remove, each loop through the
error-swallowing wrappers. The Bool records whether the branch ran to its
end; a rethrown listCollaborators error aborts it at once. -/
def updateBranchRun (username teamName : String) (collaborators : List String)
    (env : ManifestEnv) : List HostCall × Bool :=
  match GitHubManager.listCollaborators env.listResult with
  | .error _ => ([HostCall.listCollaborators username teamName], false)
  | .ok currentCollaborators =>
    let toAdd := collaboratorsToAdd collaborators currentCollaborators
    let toRemove := collaboratorsToRemove collaborators currentCollaborators username
    let adds := runCalls GitHubManager.addUserToRepository env.addResult
      (HostCall.addCollaborator username teamName) toAdd
    if adds.2 then
      let rems := runCalls GitHubManager.removeUserFromRepository env.removeResult
        (HostCall.removeCollaborator username teamName) toRemove
      (HostCall.listCollaborators username teamName :: (adds.1 ++ rems.1), rems.2)
    else
      (HostCall.listCollaborators username teamName :: adds.1, false)

/-- The create branch of the manifest flow (repository absent,
GithubManagement.ts lines 228-237): create the repository as private, then
add every manifest collaborator with its original casing, through the
error-swallowing wrappers. -/
def createBranchRun (username teamName : String) (collaborators : List String)
    (env : ManifestEnv) : List HostCall × Bool :=
  match GitHubManager.createRepository env.createResult with
  | .error _ => ([HostCall.createRepository teamName true], false)
  | .ok _ =>
    let adds := runCalls GitHubManager.addUserToRepository env.addResult
      (HostCall.addCollaborator username teamName) collaborators
    (HostCall.createRepository teamName true :: adds.1, adds.2)

/-- The whole manifest flow driver (the main IIFE of GithubManagement.ts):
authenticate, read and shape-check the manifest (parse is none when reading
or JSON parsing failed), check repository existence, then run the update or
create branch. Returns the host calls made in program order and whether the
final completion message was reached. -/
def manifestFlowRun (env : ManifestEnv) (parse : Option TeamData) :
    List HostCall × Bool :=
  match GitHubManager.getAuthenticatedUsername env.authResult with
  | .error _ => ([HostCall.getAuthenticated], false)
  | .ok username =>
    match parse with
    | none => ([HostCall.getAuthenticated], false)
    | some td =>
      match td.teamName, td.collaborators with
      | some teamName, some collaborators =>
        if teamName == "" then ([HostCall.getAuthenticated], false)
        else
          match GitHubManager.repositoryExists env.repoGetResult with
          | .error _ =>
            ([HostCall.getAuthenticated,
              HostCall.repositoryExists username teamName], false)
          | .ok true =>
            let r := updateBranchRun username teamName collaborators env
            (HostCall.getAuthenticated ::
              HostCall.repositoryExists username teamName :: r.1, r.2)
          | .ok false =>
            let r := createBranchRun username teamName collaborators env
            (HostCall.getAuthenticated ::
              HostCall.repositoryExists username teamName :: r.1, r.2)
      | _, _ => ([HostCall.getAuthenticated], false)

/-- One collaborator-entry prompt loop of the interactive flow
(src/unnamed/part_000 lines 111-115, 123-127, 129-133): lines are consumed
in order; the first empty line breaks the loop; each non-empty line issues
one call, recorded through mk. An exhausted input list ends the loop. -/
def collabLoop (mk : String → HostCall) : List String → List HostCall
  | [] => []
  | line :: rest => if line == "" then [] else mk line :: collabLoop mk rest

/-- Reads the next answer of the interactive session from the remaining
input lines; an exhausted stream is modelled as answering the empty
string. -/
def nextLine : List String → String × List String
  | [] => ("", [])
  | l :: ls => (l, ls)

/-- Model of the interactive driver main function (src/unnamed/part_000
lines 98-150) for a run whose authentication succeeded with the given
username: the host calls issued, as a function of the sequence of lines the
user types. All wrapper calls made after authentication swallow their
errors, so the trace does not depend on call outcomes. -/
def interactiveFlowCalls (username : String) (lines : List String) : List HostCall :=
  HostCall.getAuthenticated ::
  (let a1 := nextLine lines
   let action := lowerStr a1.1
   if action == "create" then
     let a2 := nextLine a1.2
     HostCall.createRepository a2.1 true ::
       collabLoop (HostCall.addCollaborator username a2.1) a2.2
   else if action == "edit" then
     let a2 := nextLine a1.2
     let repoName := a2.1
     let a3 := nextLine a2.2
     let editAction := lowerStr a3.1
     if editAction == "add" then
       collabLoop (HostCall.addCollaborator username repoName) a3.2
     else if editAction == "remove" then
       collabLoop (HostCall.removeCollaborator username repoName) a3.2
     else if editAction == "delete" then
       let a4 := nextLine a3.2
       if lowerStr a4.1 == "yes" then
         [HostCall.deleteRepository username repoName]
       else []
     else []
   else [])

/-! Reconciliation lemmas shared by several results below. -/

theorem mem_collaboratorsToAdd {D C : List String} {x : String} :
    x ∈ collaboratorsToAdd D C ↔ x ∈ D.map lowerStr ∧ x ∉ C.map lowerStr := by
  simp [collaboratorsToAdd]

theorem mem_collaboratorsToRemove {D C : List String} {O x : String} :
    x ∈ collaboratorsToRemove D C O ↔
      x ∈ C.map lowerStr ∧ x ∉ D.map lowerStr ∧ x ≠ lowerStr O := by
  simp [collaboratorsToRemove, and_assoc]

/-- C1: after lowercasing the desired list, the current list and the owner,
toAdd holds exactly the desired members absent from the current list, and
toRemove holds exactly the current members that are neither desired nor
equal to the owner. -/
theorem reconcile_membership (D C : List String) (O x : String) :
    (x ∈ collaboratorsToAdd D C ↔ x ∈ D.map lowerStr ∧ x ∉ C.map lowerStr) ∧
    (x ∈ collaboratorsToRemove D C O ↔
      x ∈ C.map lowerStr ∧ x ∉ D.map lowerStr ∧ x ≠ lowerStr O) :=
  ⟨mem_collaboratorsToAdd, mem_collaboratorsToRemove⟩

/-- Witness for reconcile_membership on the scenario of the spec. -/
theorem reconcile_membership_witness :
    "alice" ∈ collaboratorsToAdd ["alice", "BOB"] ["bob", "carol", "owner1"] ↔
      "alice" ∈ (["alice", "BOB"].map lowerStr) ∧
        "alice" ∉ (["bob", "carol", "owner1"].map lowerStr) :=
  (reconcile_membership ["alice", "BOB"] ["bob", "carol", "owner1"] "owner1" "alice").1

/-- C2: toAdd and toRemove are disjoint, toAdd avoids the current list and
toRemove avoids the desired list under case-insensitive equality, and the
owner is never in toRemove. -/
theorem reconcile_disjoint (D C : List String) (O : String) :
    (∀ x ∈ collaboratorsToAdd D C, x ∉ collaboratorsToRemove D C O) ∧
    (∀ x ∈ collaboratorsToAdd D C, ∀ c ∈ C, lowerStr c ≠ x) ∧
    (∀ x ∈ collaboratorsToRemove D C O, ∀ d ∈ D, lowerStr d ≠ x) ∧
    lowerStr O ∉ collaboratorsToRemove D C O := by
  refine ⟨?_, ?_, ?_, ?_⟩
  · intro x hx hr
    exact (mem_collaboratorsToRemove.1 hr).2.1 (mem_collaboratorsToAdd.1 hx).1
  · intro x hx c hc he
    exact (mem_collaboratorsToAdd.1 hx).2 (he ▸ List.mem_map_of_mem lowerStr hc)
  · intro x hx d hd he
    exact (mem_collaboratorsToRemove.1 hx).2.1 (he ▸ List.mem_map_of_mem lowerStr hd)
  · intro hr
    exact (mem_collaboratorsToRemove.1 hr).2.2 rfl

/-- Witness for reconcile_disjoint: in the scenario of the spec, alice
(being added) is not also removed, and the owner is not removed although
absent from the desired list. -/
theorem reconcile_disjoint_witness :
    "alice" ∉ collaboratorsToRemove ["alice", "BOB"] ["bob", "carol", "owner1"] "owner1" ∧
    lowerStr "owner1" ∉
      collaboratorsToRemove ["alice", "BOB"] ["bob", "carol", "owner1"] "owner1" :=
  ⟨(reconcile_disjoint ["alice", "BOB"] ["bob", "carol", "owner1"] "owner1").1
      "alice" (by decide),
   (reconcile_disjoint ["alice", "BOB"] ["bob", "carol", "owner1"] "owner1").2.2.2⟩

/-- C5: reconciling a desired list against a current list that agrees with
it up to letter casing yields empty toAdd and empty toRemove, for every
owner. -/
theorem reconcile_idempotent (D D' : List String) (O : String)
    (h : D.map lowerStr = D'.map lowerStr) :
    collaboratorsToAdd D D' = [] ∧ collaboratorsToRemove D D' O = [] := by
  constructor
  · refine List.filter_eq_nil_iff.2 (fun a ha => ?_)
    rw [h] at ha
    simp [ha]
  · refine List.filter_eq_nil_iff.2 (fun a ha => ?_)
    rw [← h] at ha
    simp [ha]

/-- Witness for reconcile_idempotent on two casing variants of one list. -/
theorem reconcile_idempotent_witness :
    (["Alice", "BOB"].map lowerStr = ["alice", "bob"].map lowerStr) ∧
    collaboratorsToAdd ["Alice", "BOB"] ["alice", "bob"] = [] ∧
    collaboratorsToRemove ["Alice", "BOB"] ["alice", "bob"] "Owner" = [] :=
  ⟨by decide, reconcile_idempotent ["Alice", "BOB"] ["alice", "bob"] "Owner" (by decide)⟩

/-- C6: repositoryExists yields true on a successful lookup, false exactly
on a 404 failure, and rethrows every other failure unchanged. -/
theorem repositoryExists_spec :
    GitHubManager.repositoryExists (Except.ok ()) = Except.ok true ∧
    (∀ e : JsError, e.status = 404 →
      GitHubManager.repositoryExists (Except.error e) = Except.ok false) ∧
    (∀ e : JsError, e.status ≠ 404 →
      GitHubManager.repositoryExists (Except.error e) = Except.error e) ∧
    (∀ raw : Except JsError Unit,
      GitHubManager.repositoryExists raw = Except.ok false ↔
        ∃ e, raw = Except.error e ∧ e.status = 404) := by
  refine ⟨rfl, ?_, ?_, ?_⟩
  · intro e he
    simp [GitHubManager.repositoryExists, he]
  · intro e he
    simp [GitHubManager.repositoryExists, he]
  · intro raw
    cases raw with
    | ok u => simp [GitHubManager.repositoryExists]
    | error e =>
      by_cases he : e.status = 404
      · simp [GitHubManager.repositoryExists, he]
      · simp [GitHubManager.repositoryExists, he]

/-- Witness for repositoryExists_spec at a 404 and at a 500 failure. -/
theorem repositoryExists_spec_witness :
    GitHubManager.repositoryExists (Except.error ⟨404⟩) = Except.ok false ∧
    GitHubManager.repositoryExists (Except.error ⟨500⟩) = Except.error ⟨500⟩ :=
  ⟨repositoryExists_spec.2.1 ⟨404⟩ rfl, repositoryExists_spec.2.2.1 ⟨500⟩ (by decide)⟩

/-! Manifest flow driver lemmas. -/

theorem addUser_ok (r : Except JsError Unit) :
    GitHubManager.addUserToRepository r = Except.ok () := by
  cases r <;> rfl

theorem removeUser_ok (r : Except JsError Unit) :
    GitHubManager.removeUserFromRepository r = Except.ok () := by
  cases r <;> rfl

theorem createRepo_ok (r : Except JsError Unit) :
    GitHubManager.createRepository r = Except.ok () := by
  cases r <;> rfl

theorem deleteRepo_ok (r : Except JsError Unit) :
    GitHubManager.deleteRepository r = Except.ok () := by
  cases r <;> rfl

theorem runCalls_ok (wrapper : Except JsError Unit → Except JsError Unit)
    (hw : ∀ r, wrapper r = Except.ok ()) (raw : String → Except JsError Unit)
    (mk : String → HostCall) (l : List String) :
    runCalls wrapper raw mk l = (l.map mk, true) := by
  induction l with
  | nil => rfl
  | cons c rest ih => simp [runCalls, hw, ih]

theorem runCalls_add (raw : String → Except JsError Unit) (mk : String → HostCall)
    (l : List String) :
    runCalls GitHubManager.addUserToRepository raw mk l = (l.map mk, true) :=
  runCalls_ok _ addUser_ok raw mk l

theorem runCalls_remove (raw : String → Except JsError Unit) (mk : String → HostCall)
    (l : List String) :
    runCalls GitHubManager.removeUserFromRepository raw mk l = (l.map mk, true) :=
  runCalls_ok _ removeUser_ok raw mk l

theorem updateBranchRun_ok (u t : String) (D cur : List String) (env : ManifestEnv)
    (h : env.listResult = Except.ok cur) :
    updateBranchRun u t D env =
      (HostCall.listCollaborators u t ::
        ((collaboratorsToAdd D cur).map (HostCall.addCollaborator u t) ++
         (collaboratorsToRemove D cur u).map (HostCall.removeCollaborator u t)), true) := by
  simp [updateBranchRun, GitHubManager.listCollaborators, h, runCalls_add, runCalls_remove]

theorem updateBranchRun_err (u t : String) (D : List String) (env : ManifestEnv)
    (e : JsError) (h : env.listResult = Except.error e) :
    updateBranchRun u t D env = ([HostCall.listCollaborators u t], false) := by
  simp [updateBranchRun, GitHubManager.listCollaborators, h]

theorem createBranchRun_eq (u t : String) (D : List String) (env : ManifestEnv) :
    createBranchRun u t D env =
      (HostCall.createRepository t true :: D.map (HostCall.addCollaborator u t), true) := by
  cases h : env.createResult <;>
    simp [createBranchRun, GitHubManager.createRepository, h, runCalls_add]

/-- A run of the manifest flow in which every underlying API call would
succeed, authenticating as owner1 and listing the given current
collaborators. -/
def okEnv (cur : List String) : ManifestEnv :=
  ⟨Except.ok "owner1", Except.ok (), Except.ok cur, Except.ok (),
   fun _ => Except.ok (), fun _ => Except.ok ()⟩

/-- C3 counterexample: called on a manifest whose teamName field is
missing, the driver does invoke a host-client method, namely the initial
get-authenticated-identity call made before the manifest is even read, so
the run is not free of host-client invocations. It does abort: the
completion flag is false. -/
theorem malformed_manifest_calls_host :
    HostCall.getAuthenticated ∈
      (manifestFlowRun (okEnv []) (some ⟨none, some ["alice"]⟩)).1 ∧
    (manifestFlowRun (okEnv []) (some ⟨none, some ["alice"]⟩)).2 = false := by
  decide

/-- C3 amended: on a malformed manifest (teamName missing or empty, or
collaborators not an array) the driver aborts before reaching the end, and
the only host-client call of the run is the initial
get-authenticated-identity call; in particular no repository existence
check, list, create, add or remove call is made. -/
theorem malformed_manifest_aborts (env : ManifestEnv) (td : TeamData)
    (h : td.valid = false) :
    manifestFlowRun env (some td) = ([HostCall.getAuthenticated], false) := by
  obtain ⟨tn, tc⟩ := td
  unfold manifestFlowRun GitHubManager.getAuthenticatedUsername
  cases henv : env.authResult with
  | error e => rfl
  | ok username =>
    cases tn with
    | none => cases tc <;> rfl
    | some s =>
      cases tc with
      | none => rfl
      | some l =>
        simp only [TeamData.valid, Option.isSome_some, Bool.and_true] at h
        rw [bne_eq_false_iff_eq] at h
        subst h
        simp

/-- Witness for malformed_manifest_aborts on a manifest missing teamName. -/
theorem malformed_manifest_aborts_witness :
    (TeamData.mk none (some ["alice"])).valid = false ∧
    manifestFlowRun (okEnv []) (some ⟨none, some ["alice"]⟩) =
      ([HostCall.getAuthenticated], false) :=
  ⟨by decide, malformed_manifest_aborts (okEnv []) ⟨none, some ["alice"]⟩ (by decide)⟩

/-- A run whose underlying listCollaborators call fails with a server
error, while every other call would succeed. -/
def failListEnv : ManifestEnv :=
  ⟨Except.ok "owner1", Except.ok (), Except.error ⟨500⟩, Except.ok (),
   fun _ => Except.ok (), fun _ => Except.ok ()⟩

/-- C4 counterexample: with a desired collaborator alice and a failing
listCollaborators call, the update branch stops at the failed list call:
the add call for alice is never issued and the completion point is not
reached, contrary to the claim that a failing list call does not stop the
subsequent add and remove calls. -/
theorem failing_list_stops_run :
    updateBranchRun "owner1" "team" ["alice"] failListEnv =
      ([HostCall.listCollaborators "owner1" "team"], false) ∧
    HostCall.addCollaborator "owner1" "team" "alice" ∉
      (updateBranchRun "owner1" "team" ["alice"] failListEnv).1 := by
  decide

/-- C4 amended: the add, remove, create and delete wrappers catch and log
their errors and never propagate them, so every following call of the run
is still made and the run completes whatever their outcomes; the
listCollaborators wrapper instead rethrows its error, and a failing list
call aborts the update branch before any add or remove call. -/
theorem percall_error_handling (u t : String) (D : List String) (env : ManifestEnv) :
    (∀ r, GitHubManager.addUserToRepository r = Except.ok ()) ∧
    (∀ r, GitHubManager.removeUserFromRepository r = Except.ok ()) ∧
    (∀ r, GitHubManager.createRepository r = Except.ok ()) ∧
    (∀ r, GitHubManager.deleteRepository r = Except.ok ()) ∧
    (∀ e, GitHubManager.listCollaborators (Except.error e) = Except.error e) ∧
    (∀ e, env.listResult = Except.error e →
      updateBranchRun u t D env = ([HostCall.listCollaborators u t], false)) ∧
    (∀ cur, env.listResult = Except.ok cur →
      updateBranchRun u t D env =
        (HostCall.listCollaborators u t ::
          ((collaboratorsToAdd D cur).map (HostCall.addCollaborator u t) ++
           (collaboratorsToRemove D cur u).map (HostCall.removeCollaborator u t)),
         true)) :=
  ⟨addUser_ok, removeUser_ok, createRepo_ok, deleteRepo_ok, fun _ => rfl,
   fun e h => updateBranchRun_err u t D env e h,
   fun cur h => updateBranchRun_ok u t D cur env h⟩

/-- A run whose underlying add and remove calls all fail with a server
error, while authentication and listing succeed. -/
def flakyEnv : ManifestEnv :=
  ⟨Except.ok "owner1", Except.ok (), Except.ok ["carol"], Except.ok (),
   fun _ => Except.error ⟨500⟩, fun _ => Except.error ⟨500⟩⟩

/-- Witness for percall_error_handling: although every underlying add and
remove call fails, the update branch still issues the add call for alice
and the remove call for carol and reaches its completion point. -/
theorem percall_error_handling_witness :
    updateBranchRun "owner1" "team" ["alice"] flakyEnv =
      (HostCall.listCollaborators "owner1" "team" ::
        ((collaboratorsToAdd ["alice"] ["carol"]).map
            (HostCall.addCollaborator "owner1" "team") ++
         (collaboratorsToRemove ["alice"] ["carol"] "owner1").map
            (HostCall.removeCollaborator "owner1" "team")), true) :=
  (percall_error_handling "owner1" "team" ["alice"] flakyEnv).2.2.2.2.2.2 ["carol"] rfl

/-! Interactive flow lemmas. -/

theorem collabLoop_eq (mk : String → HostCall) (lines : List String) :
    collabLoop mk lines = (lines.takeWhile (fun l => l != "")).map mk := by
  induction lines with
  | nil => rfl
  | cons l ls ih =>
    by_cases h : l = ""
    · subst h
      simp [collabLoop, List.takeWhile_cons]
    · simp [collabLoop, List.takeWhile_cons, h, ih]

/-- C7: in the delete sub-action of the edit flow, the deleteRepository
host call is made exactly when the confirmation answer lowercases to yes;
any other answer leaves the deletion un-attempted. -/
theorem delete_confirmation (u r confirm : String) (rest : List String) :
    HostCall.deleteRepository u r ∈
      interactiveFlowCalls u ("edit" :: r :: "delete" :: confirm :: rest) ↔
    lowerStr confirm = "yes" := by
  have hred : interactiveFlowCalls u ("edit" :: r :: "delete" :: confirm :: rest) =
      HostCall.getAuthenticated ::
        (if lowerStr confirm == "yes" then [HostCall.deleteRepository u r] else []) := rfl
  rw [hred]
  by_cases hy : lowerStr confirm = "yes"
  · simp [hy]
  · simp [hy]

/-- Witness for delete_confirmation: an uppercase YES answer triggers the
delete call. -/
theorem delete_confirmation_witness :
    HostCall.deleteRepository "owner1" "repo" ∈
      interactiveFlowCalls "owner1" ["edit", "repo", "delete", "YES"] :=
  (delete_confirmation "owner1" "repo" "YES" []).2 (by decide)

/-- C8: in the create flow and in the add and remove sub-actions of the
edit flow, one host call is issued per collaborator line in order until the
first empty line, which stops the loop with no call for it or for any later
line. -/
theorem collaborator_entry_loops (u r : String) (lines : List String) :
    interactiveFlowCalls u ("create" :: r :: lines) =
      HostCall.getAuthenticated :: HostCall.createRepository r true ::
        (lines.takeWhile (fun l => l != "")).map (HostCall.addCollaborator u r) ∧
    interactiveFlowCalls u ("edit" :: r :: "add" :: lines) =
      HostCall.getAuthenticated ::
        (lines.takeWhile (fun l => l != "")).map (HostCall.addCollaborator u r) ∧
    interactiveFlowCalls u ("edit" :: r :: "remove" :: lines) =
      HostCall.getAuthenticated ::
        (lines.takeWhile (fun l => l != "")).map (HostCall.removeCollaborator u r) := by
  have e1 : interactiveFlowCalls u ("create" :: r :: lines) =
      HostCall.getAuthenticated :: HostCall.createRepository r true ::
        collabLoop (HostCall.addCollaborator u r) lines := rfl
  have e2 : interactiveFlowCalls u ("edit" :: r :: "add" :: lines) =
      HostCall.getAuthenticated :: collabLoop (HostCall.addCollaborator u r) lines := rfl
  have e3 : interactiveFlowCalls u ("edit" :: r :: "remove" :: lines) =
      HostCall.getAuthenticated :: collabLoop (HostCall.removeCollaborator u r) lines := rfl
  exact ⟨by rw [e1, collabLoop_eq], by rw [e2, collabLoop_eq], by rw [e3, collabLoop_eq]⟩

/-- Witness for collaborator_entry_loops: two names, then an empty line,
then a further name that is never submitted. -/
theorem collaborator_entry_loops_witness :
    interactiveFlowCalls "owner1" ["create", "repo", "Ann", "Ben", "", "Cid"] =
      HostCall.getAuthenticated :: HostCall.createRepository "repo" true ::
        ((["Ann", "Ben", "", "Cid"].takeWhile (fun l => l != "")).map
          (HostCall.addCollaborator "owner1" "repo")) :=
  (collaborator_entry_loops "owner1" "repo" ["Ann", "Ben", "", "Cid"]).1

/-- C9: the manifest flow deduplicates nothing: an identity occurring k
times in the lowercased desired list and absent from the current list
occurs k times in toAdd, and the update branch issues the add call for it k
times. -/
theorem manifest_no_dedup (u t x : String) (D cur : List String) (env : ManifestEnv)
    (hcur : env.listResult = Except.ok cur) (hx : x ∉ cur.map lowerStr) :
    (collaboratorsToAdd D cur).count x = (D.map lowerStr).count x ∧
    (updateBranchRun u t D env).1.count (HostCall.addCollaborator u t x) =
      (D.map lowerStr).count x := by
  have hp : (!((cur.map lowerStr).contains x)) = true := by simp [hx]
  have hinj : Function.Injective (HostCall.addCollaborator u t) := by
    intro a b hab
    injection hab
  have h1 : (collaboratorsToAdd D cur).count x = (D.map lowerStr).count x := by
    unfold collaboratorsToAdd
    exact List.count_filter hp
  refine ⟨h1, ?_⟩
  rw [updateBranchRun_ok u t D cur env hcur]
  have h2 : ((collaboratorsToRemove D cur u).map
      (HostCall.removeCollaborator u t)).count (HostCall.addCollaborator u t x) = 0 := by
    rw [List.count_eq_zero]
    simp
  have h3 : ((collaboratorsToAdd D cur).map (HostCall.addCollaborator u t)).count
      (HostCall.addCollaborator u t x) = (collaboratorsToAdd D cur).count x :=
    List.count_map_of_injective _ _ hinj x
  simp [List.count_cons, List.count_append, h2, h3, h1]

/-- Witness for manifest_no_dedup: a twice-listed identity is added twice. -/
theorem manifest_no_dedup_witness :
    (collaboratorsToAdd ["Dup", "dup"] []).count "dup" = 2 ∧
    (updateBranchRun "owner1" "team" ["Dup", "dup"] (okEnv [])).1.count
      (HostCall.addCollaborator "owner1" "team" "dup") = 2 := by
  have h := manifest_no_dedup "owner1" "team" "dup" ["Dup", "dup"] [] (okEnv []) rfl
    (by decide)
  have h2 : ((["Dup", "dup"].map lowerStr).count "dup") = 2 := by decide
  constructor
  · rw [← h2]
    exact h.1
  · rw [← h2]
    exact h.2

/-- C10: in the update branch every add or remove call carries a
lowercase-normalized username (the lowercasing of a manifest entry for
adds, of a listed collaborator for removes), while the create branch passes
every manifest entry to its add call with the original casing unmodified. -/
theorem manifest_casing (u t : String) (D cur : List String) (env : ManifestEnv)
    (hcur : env.listResult = Except.ok cur) :
    (∀ c, HostCall.addCollaborator u t c ∈ (updateBranchRun u t D env).1 →
      ∃ d ∈ D, c = lowerStr d) ∧
    (∀ c, HostCall.removeCollaborator u t c ∈ (updateBranchRun u t D env).1 →
      ∃ d ∈ cur, c = lowerStr d) ∧
    createBranchRun u t D env =
      (HostCall.createRepository t true :: D.map (HostCall.addCollaborator u t), true) := by
  rw [updateBranchRun_ok u t D cur env hcur]
  refine ⟨?_, ?_, createBranchRun_eq u t D env⟩
  · intro c hc
    simp only [List.mem_cons, List.mem_append, List.mem_map] at hc
    rcases hc with h | ⟨a, ha, hEq⟩ | ⟨a, ha, hEq⟩
    · exact absurd h (by simp)
    · injection hEq with hu ht ha2
      subst ha2
      rcases List.mem_map.1 (mem_collaboratorsToAdd.1 ha).1 with ⟨d, hd, hld⟩
      exact ⟨d, hd, hld.symm⟩
    · exact absurd hEq (by simp)
  · intro c hc
    simp only [List.mem_cons, List.mem_append, List.mem_map] at hc
    rcases hc with h | ⟨a, ha, hEq⟩ | ⟨a, ha, hEq⟩
    · exact absurd h (by simp)
    · exact absurd hEq (by simp)
    · injection hEq with hu ht ha2
      subst ha2
      rcases List.mem_map.1 (mem_collaboratorsToRemove.1 ha).1 with ⟨d, hd, hld⟩
      exact ⟨d, hd, hld.symm⟩

/-- Witness for manifest_casing: the add call for a mixed-case manifest
entry of the update branch carries its lowercased form. -/
theorem manifest_casing_witness :
    ∃ d ∈ ["MixedCase"], "mixedcase" = lowerStr d := by
  refine (manifest_casing "owner1" "team" ["MixedCase"] ["Carol"] (okEnv ["Carol"])
    rfl).1 "mixedcase" ?_
  decide
